import Mathlib

/-!
Verification of the chunking / token-budget / aggregation core of the
`gemini_data_analyst` batch data-enrichment pipeline.

A Polars `DataFrame` is modelled as an ordered list of column names together
with row-major cell values (`DF`).  The functions below are shallow embeddings
of the Python functions in `text_splitter.py`, `ai.py` and `run_script.py`:
pure dataframe manipulation becomes pure list manipulation, the fallible
remote calls become `Option`-valued inputs, and the filesystem consulted by
the versioned-path generator becomes an explicit finite list of existing
paths.  Machine arithmetic is exact (Python integers are unbounded; the
`0.8` / `0.5` scale factors are represented exactly in `ℚ`).
-/

set_option maxHeartbeats 1000000

/-- A Polars DataFrame: ordered column names plus row-major cells.  Cell
values are modelled as strings (the pipeline casts every column to string
before aggregation). -/
structure DF where
  columns : List String
  rows : List (List String)
deriving DecidableEq, Repr

/-- `len(df)` / `df.height`: the number of rows. -/
def DF.height (df : DF) : Nat := df.rows.length

/-- `df.is_empty()`: true when the frame has no rows. -/
def DF.isEmpty (df : DF) : Bool := df.rows.isEmpty

/-- `pl.DataFrame()`: the empty frame with no columns and no rows. -/
def emptyDF : DF := ⟨[], []⟩

/-- `df.slice(offset, length)`: rows `[offset, offset+length)`, columns kept. -/
def DF.slice (df : DF) (offset length : Nat) : DF :=
  ⟨df.columns, (df.rows.drop offset).take length⟩

/-- Index of the first column named `n` (polars column names are unique). -/
def colIdx : List String → String → Nat
  | [], _ => 0
  | c :: cs, n => if c = n then 0 else colIdx cs n + 1

/-- `df.select(names)`: project the named columns, in the given order. -/
def DF.select (df : DF) (names : List String) : DF :=
  ⟨names, df.rows.map (fun r => names.map (fun n => r.getD (colIdx df.columns n) ""))⟩

/-- The spec's Table invariant: column names are unique and every row has one
cell per column. -/
def DFWF (df : DF) : Prop :=
  df.columns.Nodup ∧ ∀ r ∈ df.rows, r.length = df.columns.length

instance (df : DF) : Decidable (DFWF df) := by
  unfold DFWF; infer_instance

/-- `chunk_polars_dataframe(df, chunk_size)` from `text_splitter.py`:
splits a DataFrame into contiguous chunks of `chunk_size` rows.  `None` or
empty input yields `[]`.  `num_chunks = math.ceil(total_rows / chunk_size)`
is embedded as the exact integer ceiling `(total_rows + chunk_size - 1) /
chunk_size`; each chunk is `df.slice(start, end - start).select(df.columns)`
and is appended only if it has at least one row. -/
def chunk_polars_dataframe (df : Option DF) (chunk_size : Nat) : List DF :=
  match df with
  | none => []
  | some d =>
    if d.height = 0 then []
    else
      let total_rows := d.height
      let num_chunks := (total_rows + chunk_size - 1) / chunk_size
      (List.range num_chunks).filterMap (fun i =>
        let start_idx := i * chunk_size
        let end_idx := min ((i + 1) * chunk_size) total_rows
        let c := (d.slice start_idx (end_idx - start_idx)).select d.columns
        if 0 < c.height then some c else none)

/-- `pl.concat([a, b], how="vertical")`: vertical concatenation; a schema
mismatch raises in polars, modelled as `none`. -/
def vconcat2 (a b : DF) : Option DF :=
  if a.columns = b.columns then some ⟨a.columns, a.rows ++ b.rows⟩ else none

/-- `combine_dataframes_loop(dataframes)` from `text_splitter.py`: starts from
`pl.DataFrame()` and folds the list, cloning the first non-empty frame and
vertically concatenating the rest.  An empty input list returns
`pl.DataFrame()`. -/
def combine_dataframes_loop (dataframes : List DF) : Option DF :=
  if dataframes.isEmpty then some emptyDF
  else
    dataframes.foldlM
      (fun combined_df df =>
        if ¬ combined_df.isEmpty then vconcat2 combined_df df else some df)
      emptyDF

/-! ### Embedding of the `data_processing_pipeline` class (`ai.py`) -/

/-- Python's `int(...)` applied to an exact rational: truncation toward zero. -/
def py_int (q : ℚ) : ℤ := if 0 ≤ q then ⌊q⌋ else ⌈q⌉

/-- `MODEL_TOKEN_LIMITS`: the class-level static table of output-token
ceilings keyed by model identifier. -/
def MODEL_TOKEN_LIMITS : List (String × Nat) :=
  [("gemini-2.0-flash-001", 8192),
   ("gemini-2.0-flash", 8192),
   ("gemini-2.0-flash-exp", 8192),
   ("gemini-2.5-pro", 65536),
   ("gemini-2.5-pro-preview-06-05", 65536),
   ("gemini-2.5-flash", 65536),
   ("gemini-2.5-flash-preview-05-20", 65536),
   ("gemini-1.5-pro", 8192),
   ("gemini-1.5-pro-001", 8192),
   ("gemini-1.5-pro-002", 8192),
   ("gemini-1.5-flash", 8192),
   ("gemini-1.5-flash-001", 8192),
   ("gemini-1.5-flash-002", 8192),
   ("gemini-1.5-flash-8b", 8192)]

/-- `get_model_token_limit`: `MODEL_TOKEN_LIMITS.get(model_name, 8192)`,
as a function of the instance's resolved model name. -/
def get_model_token_limit (model_name : String) : Nat :=
  (MODEL_TOKEN_LIMITS.lookup model_name).getD 8192

/-- `calculate_safe_input_limit`: `int(output_limit * 0.5)`. -/
def calculate_safe_input_limit (model_name : String) : Nat :=
  (py_int ((get_model_token_limit model_name : ℚ) * (5 / 10))).toNat

/-- `count_tokens_with_gemini(content)`: delegates to the remote tokenizer;
the remote outcome is modelled as `Option Nat` (`none` = the call raised).
On failure the except-branch returns 0. -/
def count_tokens_with_gemini (remote_count : Option Nat) : Nat :=
  match remote_count with
  | some token_count => token_count
  | none => 0

/-- `validate_token_limit(content)`: `(is_valid, token_count, safe_limit)`
with `is_valid = token_count <= safe_limit`. -/
def validate_token_limit (remote_count : Option Nat) (model_name : String) :
    Bool × Nat × Nat :=
  let token_count := count_tokens_with_gemini remote_count
  let safe_limit := calculate_safe_input_limit model_name
  (decide (token_count ≤ safe_limit), token_count, safe_limit)

/-- `validate_content_tokens(content, current_chunk_size)`: re-reports the
result of `validate_token_limit` through the explicit `if not is_valid`
branch. -/
def validate_content_tokens (remote_count : Option Nat) (model_name : String) :
    Bool × Nat × Nat :=
  let r := validate_token_limit remote_count model_name
  if ¬ r.1 then (false, r.2.1, r.2.2) else (true, r.2.1, r.2.2)

/-- `calculate_optimal_chunk_size(current_chunk_size, token_count, safe_limit)`:
returns the current size when within budget, otherwise
`max(1, int(current_chunk_size * (safe_limit / token_count) * 0.8))`. -/
def calculate_optimal_chunk_size
    (current_chunk_size token_count safe_limit : Nat) : Nat :=
  if token_count ≤ safe_limit then current_chunk_size
  else
    max 1 (py_int ((current_chunk_size : ℚ)
      * ((safe_limit : ℚ) / (token_count : ℚ)) * (8 / 10))).toNat

/-- The spec's formula for the Adaptive Resubmission Controller, as written:
`max(1, floor(current_size * (safe_limit / token_count) * 0.8))`. -/
def optimal_size_spec (current_size token_count safe_limit : Nat) : Nat :=
  max 1 (⌊(current_size : ℚ) * ((safe_limit : ℚ) / (token_count : ℚ))
    * (8 / 10)⌋).toNat

/-- `response_data_cleansed(ai_response)`: finds the first `[` (via
`re.search` on the text) and the last `]` (via `re.search` on the reversed
text) and returns the inclusive slice between them; returns `None` when
either is absent.  Text is modelled as a list of characters. -/
def response_data_cleansed (ai_response : List Char) : Option (List Char) :=
  match ai_response.findIdx? (fun ch => ch == '['),
      ai_response.reverse.findIdx? (fun ch => ch == ']') with
  | some json_start, some rev_idx =>
    let json_end := ai_response.length - rev_idx
    some ((ai_response.take json_end).drop json_start)
  | _, _ => none

/-- The spec's example raw response, the text `noise [{"a":1}] noise`,
written as characters (`\x7b`, `\x7d` are the braces, `\x22` the quote). -/
def noise_example : List Char :=
  ['n', 'o', 'i', 's', 'e', ' ', '[', '\x7b', '\x22', 'a', '\x22', ':', '1',
   '\x7d', ']', ' ', 'n', 'o', 'i', 's', 'e']

/-- The spec's expected extraction, the text `[{"a":1}]`, as characters. -/
def json_example : List Char :=
  ['[', '\x7b', '\x22', 'a', '\x22', ':', '1', '\x7d', ']']

/-! ### Embedding of the versioned output path generator (`ai.py`) -/

/-- The `Results_{YYYYMMDD}` subfolder inside `base_dir`. -/
def results_subfolder (base_dir current_date : String) : String :=
  base_dir ++ "/Results_" ++ current_date

/-- The initial candidate `{subfolder}/{prefix}_{YYYYMMDD_HHMM}.xlsx`. -/
def initial_output_path (base_dir pre current_date current_time : String) :
    String :=
  results_subfolder base_dir current_date ++ "/" ++ pre ++ "_"
    ++ current_time ++ ".xlsx"

/-- The versioned candidate `{subfolder}/{prefix}_{YYYYMMDD_HHMM}_v{n}.xlsx`. -/
def versioned_output_name
    (base_dir pre current_date current_time : String) (version : Nat) : String :=
  results_subfolder base_dir current_date ++ "/" ++ pre ++ "_"
    ++ current_time ++ "_v" ++ toString version ++ ".xlsx"

/-- The `while os.path.exists(versioned_path)` loop of
`get_versioned_output_path`, increasing `version` until an unused name is
found.  The filesystem is a finite list of existing paths, so the loop is
given `existing.length + 1` iterations of fuel, enough to reach a free name
whenever one exists in that range. -/
def version_scan (existing : List String)
    (base_dir pre current_date current_time : String) : Nat → Nat → String
  | version, 0 => versioned_output_name base_dir pre current_date current_time version
  | version, fuel + 1 =>
    if existing.contains
        (versioned_output_name base_dir pre current_date current_time version) then
      version_scan existing base_dir pre current_date current_time (version + 1) fuel
    else
      versioned_output_name base_dir pre current_date current_time version

/-- `get_versioned_output_path(base_dir, prefix)`: the current date and time
strings (`YYYYMMDD`, `YYYYMMDD_HHMM` — read from the wall clock in the
source) and the set of existing paths (read from the filesystem in the
source) are explicit arguments. -/
def get_versioned_output_path (existing : List String)
    (base_dir pre current_date current_time : String) : String :=
  let base_path := initial_output_path base_dir pre current_date current_time
  if existing.contains base_path then
    version_scan existing base_dir pre current_date current_time 1
      (existing.length + 1)
  else base_path

/-! ### Embedding of the concurrent driver (`run_script.py`) -/

/-- `process_all_chunks(df_chunks, data_processor, prompt)`: one task per
chunk; `chunk_results.getD i none` is the value of task `i` (`none` when
`process_chunk` returned `None` after an error).  `asyncio.as_completed`
yields tasks in completion order, modelled by `completion_order` (a
permutation of the task indices); `None` results are dropped. -/
def process_all_chunks (chunk_results : List (Option DF))
    (completion_order : List Nat) : List DF :=
  completion_order.filterMap (fun i => chunk_results.getD i none)

/-- `pl.concat(dfs, how="vertical")` on a list: polars raises on an empty
list (modelled `none`) and folds pairwise vertical concatenation otherwise. -/
def pl_concat_vertical : List DF → Option DF
  | [] => none
  | d :: ds => ds.foldlM vconcat2 d

/-- The tail of `main()`: combine the collected per-chunk results in the
order `process_all_chunks` delivered them, or report nothing to combine. -/
def main_aggregate (chunk_results : List (Option DF))
    (completion_order : List Nat) : Option DF :=
  let all_processed_dfs := process_all_chunks chunk_results completion_order
  if all_processed_dfs.isEmpty then none
  else pl_concat_vertical all_processed_dfs

/-! ### Helper lemmas about the chunker and the combiner -/

theorem colIdx_cons (c : String) (cs : List String) (n : String) :
    colIdx (c :: cs) n = if c = n then 0 else colIdx cs n + 1 := rfl

theorem select_row_id (cs : List String) (r : List String) (hn : cs.Nodup)
    (hl : r.length = cs.length) :
    cs.map (fun n => r.getD (colIdx cs n) "") = r := by
  induction cs generalizing r with
  | nil =>
    cases r with
    | nil => rfl
    | cons a r => simp at hl
  | cons c cs ih =>
    cases r with
    | nil => simp at hl
    | cons a r =>
      simp only [List.map_cons, List.cons.injEq]
      have hcn : c ∉ cs := (List.nodup_cons.mp hn).1
      refine ⟨by simp [colIdx_cons], ?_⟩
      have : cs.map (fun n => (a :: r).getD (colIdx (c :: cs) n) "") =
          cs.map (fun n => r.getD (colIdx cs n) "") := by
        apply List.map_congr_left
        intro n hncs
        have hne : ¬ (c = n) := fun h => hcn (h ▸ hncs)
        simp [colIdx_cons, if_neg hne]
      rw [this]
      exact ih r (List.nodup_cons.mp hn).2 (by simpa using hl)

theorem slice_select_eq (T : DF) (hT : DFWF T) (a b : Nat) :
    (T.slice a b).select T.columns = T.slice a b := by
  obtain ⟨hn, hl⟩ := hT
  unfold DF.slice DF.select
  simp only [DF.mk.injEq, true_and]
  have : ∀ r ∈ (T.rows.drop a).take b,
      T.columns.map (fun n => r.getD (colIdx T.columns n) "") = r := by
    intro r hr
    have hrT : r ∈ T.rows := List.mem_of_mem_drop (List.mem_of_mem_take hr)
    exact select_row_id T.columns r hn (hl r hrT)
  calc ((T.rows.drop a).take b).map
        (fun r => T.columns.map (fun n => r.getD (colIdx T.columns n) ""))
      = ((T.rows.drop a).take b).map id := List.map_congr_left this
    _ = (T.rows.drop a).take b := List.map_id _

theorem filterMap_eq_map_of {α β : Type} {l : List α} {f : α → Option β}
    {g : α → β} (h : ∀ a ∈ l, f a = some (g a)) : l.filterMap f = l.map g := by
  induction l with
  | nil => rfl
  | cons a l ih =>
    rw [List.filterMap_cons, h a (List.mem_cons_self a l), List.map_cons,
      ih (fun x hx => h x (List.mem_cons_of_mem a hx))]

theorem ceil_div_pos {N s : Nat} (hN : 0 < N) (hs : 0 < s) :
    0 < (N + s - 1) / s := by
  have e := Nat.div_add_mod (N + s - 1) s
  have hr := Nat.mod_lt (N + s - 1) hs
  rcases Nat.eq_zero_or_pos ((N + s - 1) / s) with h | h
  · rw [h] at e; omega
  · exact h

theorem mul_lt_of_lt_ceil {N s i : Nat}
    (hi : i < (N + s - 1) / s) : i * s < N := by
  have hs : 0 < s := by
    rcases Nat.eq_zero_or_pos s with h | h
    · subst h; simp [Nat.div_zero] at hi
    · exact h
  have e := Nat.div_add_mod (N + s - 1) s
  have hr := Nat.mod_lt (N + s - 1) hs
  have h1 : (i + 1) * s ≤ ((N + s - 1) / s) * s :=
    Nat.mul_le_mul_right s hi
  have h2 : ((N + s - 1) / s) * s = s * ((N + s - 1) / s) := Nat.mul_comm _ _
  have h3 : (i + 1) * s = i * s + s := by ring
  omega

theorem ceil_mul_ge (N s : Nat) (hs : 0 < s) : N ≤ ((N + s - 1) / s) * s := by
  have e := Nat.div_add_mod (N + s - 1) s
  have hr := Nat.mod_lt (N + s - 1) hs
  have h2 : ((N + s - 1) / s) * s = s * ((N + s - 1) / s) := Nat.mul_comm _ _
  omega

theorem succ_mul_lt_of_succ_lt_ceil {N s i : Nat}
    (hi : i + 1 < (N + s - 1) / s) : (i + 1) * s < N :=
  mul_lt_of_lt_ceil hi

theorem flatten_range_chunks {α : Type} (l : List α) (s : Nat) :
    ∀ k : Nat,
      ((List.range k).map
        (fun i => (l.drop (i * s)).take (min ((i + 1) * s) l.length - i * s))).flatten
      = l.take (k * s) := by
  intro k
  induction k with
  | zero => simp
  | succ k ih =>
    rw [List.range_succ, List.map_append, List.flatten_append, ih]
    simp only [List.map_cons, List.map_nil, List.flatten_cons, List.flatten_nil,
      List.append_nil]
    have hks : (k + 1) * s = k * s + s := by ring
    rw [hks, List.take_add]
    congr 1
    rw [List.take_eq_take, List.length_drop]
    omega

theorem chunk_eq_map (T : DF) (s : Nat) (hT : DFWF T) (hne : T.height ≠ 0) :
    chunk_polars_dataframe (some T) s =
      (List.range ((T.height + s - 1) / s)).map
        (fun i => DF.mk T.columns
          ((T.rows.drop (i * s)).take (min ((i + 1) * s) T.height - i * s))) := by
  simp only [chunk_polars_dataframe]
  rw [if_neg hne]
  apply filterMap_eq_map_of
  intro i hi
  dsimp only
  rw [List.mem_range] at hi
  have his : i * s < T.height := mul_lt_of_lt_ceil hi
  have hsel : (T.slice (i * s) (min ((i + 1) * s) T.height - i * s)).select T.columns
      = T.slice (i * s) (min ((i + 1) * s) T.height - i * s) :=
    slice_select_eq T hT _ _
  simp only [hsel]
  have hh : 0 < (T.slice (i * s) (min ((i + 1) * s) T.height - i * s)).height := by
    unfold DF.slice DF.height
    simp only [List.length_take, List.length_drop]
    have hs : 0 < s := by
      rcases Nat.eq_zero_or_pos s with h | h
      · subst h; simp [Nat.div_zero] at hi
      · exact h
    have h4 : (i + 1) * s = i * s + s := by ring
    have hlen : T.height = T.rows.length := rfl
    omega
  rw [if_pos hh]
  rfl

theorem combine_fold_aux (cs : List String) :
    ∀ (dfs : List DF) (acc : DF), acc.columns = cs → acc.rows ≠ [] →
      (∀ d ∈ dfs, d.columns = cs) →
      List.foldlM
        (fun combined_df df =>
          if ¬ combined_df.isEmpty then vconcat2 combined_df df else some df)
        acc dfs
      = some ⟨cs, acc.rows ++ (dfs.map DF.rows).flatten⟩ := by
  intro dfs
  induction dfs with
  | nil =>
    intro acc hc hr _
    cases acc with
    | mk c r => simp only at hc hr ⊢; subst hc; simp [List.foldlM]
  | cons d ds ih =>
    intro acc hc hr hall
    rw [List.foldlM_cons]
    have hne : ¬ acc.isEmpty := by
      cases acc with
      | mk c r => cases r with
        | nil => exact absurd rfl hr
        | cons x xs => simp [DF.isEmpty]
    rw [if_pos hne]
    have hcd : acc.columns = d.columns := by
      rw [hc, hall d (List.mem_cons_self d ds)]
    have hv : vconcat2 acc d = some ⟨acc.columns, acc.rows ++ d.rows⟩ := by
      unfold vconcat2; rw [if_pos hcd]
    rw [hv]
    show List.foldlM _ (⟨acc.columns, acc.rows ++ d.rows⟩ : DF) ds = _
    rw [ih ⟨acc.columns, acc.rows ++ d.rows⟩ hc
      (fun h => hr (List.append_eq_nil.mp h).1)
      (fun x hx => hall x (List.mem_cons_of_mem d hx))]
    simp

theorem combine_all (cs : List String) (dfs : List DF) (hne : dfs ≠ [])
    (hcols : ∀ d ∈ dfs, d.columns = cs) (hrows : ∀ d ∈ dfs, d.rows ≠ []) :
    combine_dataframes_loop dfs = some ⟨cs, (dfs.map DF.rows).flatten⟩ := by
  unfold combine_dataframes_loop
  cases dfs with
  | nil => exact absurd rfl hne
  | cons c0 rest =>
    rw [if_neg (by simp)]
    rw [List.foldlM_cons]
    have h0 : ¬ (emptyDF.isEmpty = true) → False := by simp [emptyDF, DF.isEmpty]
    rw [if_neg (by simp [emptyDF, DF.isEmpty])]
    show List.foldlM _ c0 rest = _
    rw [combine_fold_aux cs rest c0 (hcols c0 (List.mem_cons_self c0 rest))
      (hrows c0 (List.mem_cons_self c0 rest))
      (fun x hx => hcols x (List.mem_cons_of_mem c0 hx))]
    simp

theorem ceil_div_rat (N s : Nat) (hs : 0 < s) :
    ((((N + s - 1) / s : Nat) : ℤ)) = ⌈(N : ℚ) / (s : ℚ)⌉ := by
  have e := Nat.div_add_mod (N + s - 1) s
  have hr := Nat.mod_lt (N + s - 1) hs
  have h1 : N ≤ ((N + s - 1) / s) * s := ceil_mul_ge N s hs
  have h2 : ((N + s - 1) / s) * s < N + s := by
    have h2' : ((N + s - 1) / s) * s = s * ((N + s - 1) / s) := Nat.mul_comm _ _
    omega
  have hs' : (0 : ℚ) < (s : ℚ) := by exact_mod_cast hs
  symm
  rw [Int.ceil_eq_iff]
  constructor
  · have h2q : (((N + s - 1) / s : Nat) : ℚ) * (s : ℚ) < (N : ℚ) + (s : ℚ) := by
      exact_mod_cast h2
    rw [sub_lt_iff_lt_add]
    rw [show ((N : ℚ) / (s : ℚ) + 1 : ℚ) = ((N : ℚ) + (s : ℚ)) / (s : ℚ) from by
      field_simp]
    rw [lt_div_iff₀ hs']
    push_cast
    push_cast at h2q
    exact h2q
  · rw [div_le_iff₀ hs']
    exact_mod_cast h1

/-! ### Claim theorems: chunking and aggregation (text_splitter.py) -/

/-- C1: for every well-formed table `T` and positive chunk size `s`,
concatenating the chunks of `T` reconstructs `T` (row order and values, and
for non-empty `T` the frame itself); an empty table chunks to the empty
sequence and that concatenates to the empty frame, not an error. -/
theorem chunk_then_combine_id (T : DF) (s : Nat) (hs : 0 < s) (hT : DFWF T) :
    (∃ R : DF, combine_dataframes_loop (chunk_polars_dataframe (some T) s) = some R
        ∧ R.rows = T.rows)
    ∧ (0 < T.height →
        combine_dataframes_loop (chunk_polars_dataframe (some T) s) = some T)
    ∧ (T.height = 0 →
        chunk_polars_dataframe (some T) s = []
        ∧ combine_dataframes_loop (chunk_polars_dataframe (some T) s)
            = some emptyDF) := by
  by_cases h0 : T.height = 0
  · have hchunk : chunk_polars_dataframe (some T) s = [] := by
      simp only [chunk_polars_dataframe]
      rw [if_pos h0]
    have hrows : T.rows = [] := List.length_eq_zero.mp h0
    refine ⟨⟨emptyDF, ?_, ?_⟩, ?_, ?_⟩
    · rw [hchunk]; rfl
    · rw [hrows]; rfl
    · intro h; omega
    · intro _; exact ⟨hchunk, by rw [hchunk]; rfl⟩
  · have hN : 0 < T.height := Nat.pos_of_ne_zero h0
    have hmap := chunk_eq_map T s hT h0
    have hlen2 : ∀ i, i < (T.height + s - 1) / s →
        0 < ((T.rows.drop (i * s)).take
          (min ((i + 1) * s) T.height - i * s)).length := by
      intro i hi
      have his : i * s < T.height := mul_lt_of_lt_ceil hi
      simp only [List.length_take, List.length_drop]
      have h4 : (i + 1) * s = i * s + s := by ring
      have hlen : T.height = T.rows.length := rfl
      omega
    have hchunksne : (List.range ((T.height + s - 1) / s)).map
        (fun i => DF.mk T.columns
          ((T.rows.drop (i * s)).take (min ((i + 1) * s) T.height - i * s)))
        ≠ [] := by
      intro hEq
      have hk : 0 < (T.height + s - 1) / s := ceil_div_pos hN hs
      have := congrArg List.length hEq
      simp only [List.length_map, List.length_range, List.length_nil] at this
      omega
    have hcols : ∀ d ∈ (List.range ((T.height + s - 1) / s)).map
        (fun i => DF.mk T.columns
          ((T.rows.drop (i * s)).take (min ((i + 1) * s) T.height - i * s))),
        d.columns = T.columns := by
      intro d hd
      rw [List.mem_map] at hd
      obtain ⟨i, _, rfl⟩ := hd
      rfl
    have hrows2 : ∀ d ∈ (List.range ((T.height + s - 1) / s)).map
        (fun i => DF.mk T.columns
          ((T.rows.drop (i * s)).take (min ((i + 1) * s) T.height - i * s))),
        d.rows ≠ [] := by
      intro d hd
      rw [List.mem_map] at hd
      obtain ⟨i, hi, rfl⟩ := hd
      rw [List.mem_range] at hi
      exact (List.length_pos.mp (hlen2 i hi))
    have hcomb : combine_dataframes_loop (chunk_polars_dataframe (some T) s)
        = some T := by
      rw [hmap, combine_all T.columns _ hchunksne hcols hrows2]
      rw [List.map_map]
      show some (DF.mk T.columns (((List.range ((T.height + s - 1) / s)).map
        (fun i => (T.rows.drop (i * s)).take
          (min ((i + 1) * s) T.height - i * s))).flatten)) = some T
      simp only [DF.height]
      rw [flatten_range_chunks T.rows s ((T.rows.length + s - 1) / s)]
      rw [List.take_of_length_le (ceil_mul_ge T.rows.length s hs)]
    exact ⟨⟨T, hcomb, rfl⟩, fun _ => hcomb, fun h => absurd h h0⟩

/-- Witness for C1 at a concrete three-row table with chunk size 2. -/
theorem chunk_then_combine_id_witness :
    (0 < 2) ∧ DFWF ⟨["a"], [["1"], ["2"], ["3"]]⟩
    ∧ combine_dataframes_loop
        (chunk_polars_dataframe (some ⟨["a"], [["1"], ["2"], ["3"]]⟩) 2)
      = some ⟨["a"], [["1"], ["2"], ["3"]]⟩ :=
  ⟨by decide, by decide,
    (chunk_then_combine_id ⟨["a"], [["1"], ["2"], ["3"]]⟩ 2 (by decide)
      (by decide)).2.1 (by decide)⟩

/-- C5: for every well-formed non-empty table `T` with `N` rows and positive
size `s`, the chunker produces exactly `ceil(N/s)` chunks; chunk `i` is the
contiguous row range `[i*s, min((i+1)*s, N))` of `T` with `T`'s columns;
every chunk except possibly the last has exactly `s` rows, and every chunk
has between 1 and `s` rows. -/
theorem chunk_partition_spec (T : DF) (s : Nat) (hs : 0 < s) (hT : DFWF T)
    (hne : 0 < T.height) :
    ((((T.height + s - 1) / s : Nat) : ℤ) = ⌈(T.height : ℚ) / (s : ℚ)⌉)
    ∧ (chunk_polars_dataframe (some T) s).length = (T.height + s - 1) / s
    ∧ chunk_polars_dataframe (some T) s =
        (List.range ((T.height + s - 1) / s)).map
          (fun i => DF.mk T.columns
            ((T.rows.drop (i * s)).take (min ((i + 1) * s) T.height - i * s)))
    ∧ (∀ i, i + 1 < (T.height + s - 1) / s →
        ((T.rows.drop (i * s)).take
          (min ((i + 1) * s) T.height - i * s)).length = s)
    ∧ (∀ i, i < (T.height + s - 1) / s →
        0 < ((T.rows.drop (i * s)).take
          (min ((i + 1) * s) T.height - i * s)).length
        ∧ ((T.rows.drop (i * s)).take
          (min ((i + 1) * s) T.height - i * s)).length ≤ s) := by
  have h0 : T.height ≠ 0 := Nat.pos_iff_ne_zero.mp hne
  have hmap := chunk_eq_map T s hT h0
  refine ⟨ceil_div_rat T.height s hs, ?_, hmap, ?_, ?_⟩
  · rw [hmap, List.length_map, List.length_range]
  · intro i hi
    have h5 : (i + 1) * s < T.height := succ_mul_lt_of_succ_lt_ceil hi
    simp only [List.length_take, List.length_drop]
    have h4 : (i + 1) * s = i * s + s := by ring
    have hlen : T.height = T.rows.length := rfl
    omega
  · intro i hi
    have his : i * s < T.height := mul_lt_of_lt_ceil hi
    simp only [List.length_take, List.length_drop]
    have h4 : (i + 1) * s = i * s + s := by ring
    have hlen : T.height = T.rows.length := rfl
    omega

/-- Witness for C5 at a concrete three-row table with chunk size 2. -/
theorem chunk_partition_spec_witness :
    (0 < 2) ∧ DFWF ⟨["a"], [["1"], ["2"], ["3"]]⟩
    ∧ 0 < (DF.mk ["a"] [["1"], ["2"], ["3"]]).height
    ∧ (chunk_polars_dataframe (some ⟨["a"], [["1"], ["2"], ["3"]]⟩) 2).length
        = 2 :=
  ⟨by decide, by decide, by decide,
    (chunk_partition_spec ⟨["a"], [["1"], ["2"], ["3"]]⟩ 2 (by decide)
      (by decide) (by decide)).2.1⟩

/-- C9 counterexample: `combine_dataframes_loop` applied to the empty list
does not signal failure — it succeeds. -/
theorem combine_empty_not_failure : combine_dataframes_loop [] ≠ none := by
  decide

/-- C9 amended: concatenating an empty sequence of result tables returns the
synthetic empty frame `pl.DataFrame()` (no columns, zero rows), not an
explicit "nothing to aggregate" failure signal. -/
theorem combine_empty_returns_empty_table :
    combine_dataframes_loop [] = some emptyDF ∧ emptyDF.height = 0 := by
  decide

/-- C10: every chunk emitted by `chunk_polars_dataframe` (for any input,
including `None` and empty frames, at any positive size) has at least one
row. -/
theorem chunk_never_emits_empty_chunk (df : Option DF) (s : Nat) (_hs : 0 < s) :
    ∀ c ∈ chunk_polars_dataframe df s, 0 < c.height := by
  intro c hc
  match df with
  | none => simp [chunk_polars_dataframe] at hc
  | some d =>
    simp only [chunk_polars_dataframe] at hc
    by_cases h0 : d.height = 0
    · rw [if_pos h0] at hc; simp at hc
    · rw [if_neg h0] at hc
      rw [List.mem_filterMap] at hc
      obtain ⟨i, _, hfi⟩ := hc
      by_cases hh : 0 < ((d.slice (i * s)
          (min ((i + 1) * s) d.height - i * s)).select d.columns).height
      · rw [if_pos hh] at hfi
        injection hfi with h
        rw [← h]
        exact hh
      · rw [if_neg hh] at hfi
        exact Option.noConfusion hfi

/-- Witness for C10: the first chunk of a concrete three-row table at size 2
is non-empty. -/
theorem chunk_never_emits_empty_chunk_witness :
    (0 < 2) ∧ 0 < (DF.mk ["a"] [["1"], ["2"]]).height :=
  ⟨by decide,
    chunk_never_emits_empty_chunk (some ⟨["a"], [["1"], ["2"], ["3"]]⟩) 2
      (by decide) ⟨["a"], [["1"], ["2"]]⟩ (by decide)⟩

/-! ### Claim theorems: token budget and resubmission sizing (ai.py) -/

/-- C3: whenever the token count exceeds the safe limit (and the current
size is at least 1), the adaptive resubmission size computed by the code
equals the spec's `max(1, floor(current_size * (safe_limit / token_count) *
0.8))`, is always at least 1, and `optimal_size(100, 1000, 500) = 40`. -/
theorem calculate_optimal_chunk_size_spec
    (current_chunk_size token_count safe_limit : Nat)
    (hc : 1 ≤ current_chunk_size) (hts : safe_limit < token_count) :
    calculate_optimal_chunk_size current_chunk_size token_count safe_limit
      = optimal_size_spec current_chunk_size token_count safe_limit
    ∧ 1 ≤ calculate_optimal_chunk_size current_chunk_size token_count safe_limit
    ∧ calculate_optimal_chunk_size 100 1000 500 = 40 := by
  have hnotle : ¬ (token_count ≤ safe_limit) := by omega
  have hq : (0 : ℚ) ≤ (current_chunk_size : ℚ)
      * ((safe_limit : ℚ) / (token_count : ℚ)) * (8 / 10) := by positivity
  refine ⟨?_, ?_, ?_⟩
  · unfold calculate_optimal_chunk_size optimal_size_spec py_int
    rw [if_neg hnotle, if_pos hq]
  · unfold calculate_optimal_chunk_size
    rw [if_neg hnotle]
    exact le_max_left 1 _
  · unfold calculate_optimal_chunk_size py_int
    norm_num
    rfl

/-- Witness for C3 at the spec's own instance `(100, 1000, 500)`. -/
theorem calculate_optimal_chunk_size_spec_witness :
    (1 ≤ 100) ∧ (500 < 1000) ∧ calculate_optimal_chunk_size 100 1000 500 = 40 :=
  ⟨by norm_num, by norm_num,
    (calculate_optimal_chunk_size_spec 100 1000 500 (by norm_num)
      (by norm_num)).2.2⟩

theorem safe_limit_eq_half (model_name : String) :
    calculate_safe_input_limit model_name
      = get_model_token_limit model_name / 2 := by
  unfold calculate_safe_input_limit py_int
  have hq : (0 : ℚ) ≤ (get_model_token_limit model_name : ℚ) * (5 / 10) := by
    positivity
  rw [if_pos hq]
  have h1 : (get_model_token_limit model_name : ℚ) * (5 / 10)
      = ((get_model_token_limit model_name : ℕ) : ℚ) / ((2 : ℕ) : ℚ) := by
    push_cast
    ring
  rw [h1, Rat.floor_natCast_div_natCast]
  omega

/-- C6: the safe input limit is `floor(output_ceiling * 0.5)` where the
output ceiling comes from the static `MODEL_TOKEN_LIMITS` table with default
8192 for unknown identifiers; in particular both `gemini-2.0-flash-001` and
`unknown-model-xyz` give 4096. -/
theorem calculate_safe_input_limit_spec :
    (∀ model_name : String,
      calculate_safe_input_limit model_name
        = get_model_token_limit model_name / 2)
    ∧ (∀ model_name : String, MODEL_TOKEN_LIMITS.lookup model_name = none →
        get_model_token_limit model_name = 8192)
    ∧ calculate_safe_input_limit "gemini-2.0-flash-001" = 4096
    ∧ calculate_safe_input_limit "unknown-model-xyz" = 4096 := by
  refine ⟨safe_limit_eq_half, ?_, ?_, ?_⟩
  · intro m h
    unfold get_model_token_limit
    rw [h]
    rfl
  · rw [safe_limit_eq_half]
    rfl
  · rw [safe_limit_eq_half]
    rfl

/-- Witness for C6: the default-ceiling branch at the concrete unknown
identifier. -/
theorem calculate_safe_input_limit_spec_witness :
    MODEL_TOKEN_LIMITS.lookup "unknown-model-xyz" = none ∧
    get_model_token_limit "unknown-model-xyz" = 8192 :=
  ⟨by decide,
    calculate_safe_input_limit_spec.2.1 "unknown-model-xyz" (by decide)⟩

/-- C7: a remote token-counting failure yields `token_count = 0` rather than
an exception, and the validation call then reports the optimistic
pass-through `(is_valid = true, token_count = 0, safe_limit)`, so the chunk
is submitted normally. -/
theorem token_failure_optimistic_passthrough (model_name : String) :
    count_tokens_with_gemini none = 0
    ∧ validate_token_limit none model_name
        = (true, 0, calculate_safe_input_limit model_name)
    ∧ validate_content_tokens none model_name
        = (true, 0, calculate_safe_input_limit model_name) := by
  refine ⟨rfl, ?_, ?_⟩
  · unfold validate_token_limit count_tokens_with_gemini
    simp [Nat.zero_le]
  · unfold validate_content_tokens validate_token_limit count_tokens_with_gemini
    simp [Nat.zero_le]

/-! ### Claim theorems: response normalization (ai.py) -/

/-- C4: on text containing both brackets, `response_data_cleansed` returns
exactly the inclusive slice from the first `[` to the last `]`; when either
bracket is absent it returns `None`; and the spec's concrete example
extracts `[{"a":1}]`. -/
theorem response_data_cleansed_spec :
    (∀ s : List Char, '[' ∈ s → ']' ∈ s →
      ∃ i j, i < s.length ∧ j < s.length
        ∧ s.getD i ' ' = '[' ∧ (∀ k, k < i → s.getD k ' ' ≠ '[')
        ∧ s.getD j ' ' = ']' ∧ (∀ k, j < k → k < s.length → s.getD k ' ' ≠ ']')
        ∧ response_data_cleansed s = some ((s.take (j + 1)).drop i))
    ∧ (∀ s : List Char, ('[' ∉ s ∨ ']' ∉ s) → response_data_cleansed s = none)
    ∧ response_data_cleansed noise_example = some json_example := by
  refine ⟨?_, ?_, by decide⟩
  · intro s h1 h2
    have e1 : ∃ x, x ∈ s ∧ (x == '[') = true := ⟨'[', h1, by simp⟩
    have e2 : ∃ x, x ∈ s.reverse ∧ (x == ']') = true :=
      ⟨']', List.mem_reverse.mpr h2, by simp⟩
    have hi : s.findIdx? (fun ch => ch == '[')
        = some (s.findIdx (fun ch => ch == '[')) :=
      List.findIdx?_eq_some_of_exists e1
    have hr : s.reverse.findIdx? (fun ch => ch == ']')
        = some (s.reverse.findIdx (fun ch => ch == ']')) :=
      List.findIdx?_eq_some_of_exists e2
    set i := s.findIdx (fun ch => ch == '[') with hidef
    set r := s.reverse.findIdx (fun ch => ch == ']') with hrdef
    have hi' := hi
    rw [List.findIdx?_eq_some_iff_getElem] at hi'
    obtain ⟨hilen, hpi, himin⟩ := hi'
    have hr' := hr
    rw [List.findIdx?_eq_some_iff_getElem] at hr'
    obtain ⟨hrlen0, hpr, hrmin⟩ := hr'
    have hrlen : r < s.length := by
      have := hrlen0
      rwa [List.length_reverse] at this
    refine ⟨i, s.length - 1 - r, hilen, by omega, ?_, ?_, ?_, ?_, ?_⟩
    · rw [List.getD_eq_getElem?_getD, List.getElem?_eq_getElem hilen]
      have : (s[i] == '[') = true := hpi
      simp only [beq_iff_eq] at this
      rw [this]
      rfl
    · intro k hk
      have hklen : k < s.length := Nat.lt_trans hk hilen
      have hnp := himin k hk
      rw [List.getD_eq_getElem?_getD, List.getElem?_eq_getElem hklen]
      intro hEq
      apply hnp
      simp only [Option.getD_some] at hEq
      simp [hEq]
    · have hq : s.reverse[r]? = s[s.length - 1 - r]? := List.getElem?_reverse hrlen
      rw [List.getD_eq_getElem?_getD, ← hq, List.getElem?_eq_getElem hrlen0]
      have : (s.reverse[r] == ']') = true := hpr
      simp only [beq_iff_eq] at this
      rw [this]
      rfl
    · intro k hjk hklen
      have hk' : s.length - 1 - k < r := by omega
      have hnp := hrmin (s.length - 1 - k) hk'
      have hkk : s.length - 1 - (s.length - 1 - k) = k := by omega
      have hq : s.reverse[s.length - 1 - k]? = s[k]? := by
        have := List.getElem?_reverse (l := s) (i := s.length - 1 - k)
          (by omega)
        rwa [hkk] at this
      have hk'len : s.length - 1 - k < s.reverse.length := by
        rw [List.length_reverse]; omega
      rw [List.getD_eq_getElem?_getD, ← hq, List.getElem?_eq_getElem hk'len]
      intro hEq
      apply hnp
      simp only [Option.getD_some] at hEq
      simp [hEq]
    · unfold response_data_cleansed
      rw [hi, hr]
      have hje : s.length - r = (s.length - 1 - r) + 1 := by omega
      simp only [hje]
  · intro s h
    unfold response_data_cleansed
    rcases h with h | h
    · have hn : s.findIdx? (fun ch => ch == '[') = none := by
        rw [List.findIdx?_eq_none_iff]
        intro x hx
        rw [beq_eq_false_iff_ne]
        rintro rfl
        exact h hx
      rw [hn]
    · have hn : s.reverse.findIdx? (fun ch => ch == ']') = none := by
        rw [List.findIdx?_eq_none_iff]
        intro x hx
        rw [beq_eq_false_iff_ne]
        rintro rfl
        exact h (List.mem_reverse.mp hx)
      rw [hn]
      cases hfi : s.findIdx? (fun ch => ch == '[') with
      | none => rfl
      | some i => rfl

/-- Witness for C4 at a small concrete text containing both brackets. -/
theorem response_data_cleansed_spec_witness :
    ('[' ∈ (['x', '[', 'a', ']'] : List Char))
    ∧ (']' ∈ (['x', '[', 'a', ']'] : List Char))
    ∧ ∃ i j, i < (['x', '[', 'a', ']'] : List Char).length
        ∧ j < (['x', '[', 'a', ']'] : List Char).length
        ∧ (['x', '[', 'a', ']'] : List Char).getD i ' ' = '['
        ∧ (∀ k, k < i → (['x', '[', 'a', ']'] : List Char).getD k ' ' ≠ '[')
        ∧ (['x', '[', 'a', ']'] : List Char).getD j ' ' = ']'
        ∧ (∀ k, j < k → k < (['x', '[', 'a', ']'] : List Char).length →
            (['x', '[', 'a', ']'] : List Char).getD k ' ' ≠ ']')
        ∧ response_data_cleansed ['x', '[', 'a', ']']
            = some (((['x', '[', 'a', ']'] : List Char).take (j + 1)).drop i) :=
  ⟨by decide, by decide,
    response_data_cleansed_spec.1 ['x', '[', 'a', ']'] (by decide) (by decide)⟩

/-! ### Claim theorems: versioned output path (ai.py) -/

theorem version_scan_finds (existing : List String) (b p d t : String) :
    ∀ fuel v0 v : Nat, v0 ≤ v → v < v0 + fuel →
      (∀ w, v0 ≤ w → w < v →
        existing.contains (versioned_output_name b p d t w) = true) →
      existing.contains (versioned_output_name b p d t v) = false →
      version_scan existing b p d t v0 fuel
        = versioned_output_name b p d t v := by
  intro fuel
  induction fuel with
  | zero =>
    intro v0 v h1 h2 _ _
    omega
  | succ fuel ih =>
    intro v0 v h1 h2 hall hfree
    by_cases hv : v0 = v
    · subst hv
      simp only [version_scan]
      rw [hfree]
      simp
    · have hlt : v0 < v := by omega
      have hc : existing.contains (versioned_output_name b p d t v0) = true :=
        hall v0 (le_refl _) hlt
      simp only [version_scan]
      rw [hc]
      simp only [if_true]
      exact ih (v0 + 1) v (by omega) (by omega)
        (fun w hw1 hw2 => hall w (by omega) hw2) hfree

/-- C8 counterexample: with an empty filesystem, the same base directory,
prefix and day, two calls whose `HHMM` timestamps differ (two runs in the
same day, no intervening file creation) return different paths, because the
minute-level timestamp is part of the file name. -/
theorem get_versioned_output_path_same_day_differs :
    get_versioned_output_path [] "/out" "Data_Response" "20260101"
        "20260101_1200"
      ≠ get_versioned_output_path [] "/out" "Data_Response" "20260101"
        "20260101_1201" := by
  decide

/-- C8 amended: for a fixed prefix and timestamp (not merely a fixed day),
the generator is deterministic given the same set of existing files: it
returns `{base}/Results_{date}/{prefix}_{time}.xlsx` while no file exists
there; once that file exists the next call returns the `_v1` name; and in
general it returns the first free `_v{n}` name, versions having been scanned
upward from 1. -/
theorem get_versioned_output_path_spec (existing : List String)
    (base_dir pre current_date current_time : String) :
    (existing.contains
        (initial_output_path base_dir pre current_date current_time) = false →
      get_versioned_output_path existing base_dir pre current_date current_time
        = initial_output_path base_dir pre current_date current_time)
    ∧ (existing.contains
          (initial_output_path base_dir pre current_date current_time) = true →
        existing.contains
          (versioned_output_name base_dir pre current_date current_time 1)
            = false →
        get_versioned_output_path existing base_dir pre current_date current_time
          = versioned_output_name base_dir pre current_date current_time 1)
    ∧ (∀ v, 1 ≤ v → v ≤ existing.length + 1 →
        existing.contains
          (initial_output_path base_dir pre current_date current_time) = true →
        (∀ w, 1 ≤ w → w < v →
          existing.contains
            (versioned_output_name base_dir pre current_date current_time w)
              = true) →
        existing.contains
          (versioned_output_name base_dir pre current_date current_time v)
            = false →
        get_versioned_output_path existing base_dir pre current_date current_time
          = versioned_output_name base_dir pre current_date current_time v) := by
  refine ⟨?_, ?_, ?_⟩
  · intro h
    simp only [get_versioned_output_path]
    rw [h]
    simp
  · intro h1 h2
    simp only [get_versioned_output_path]
    rw [h1]
    simp only [if_true]
    exact version_scan_finds existing base_dir pre current_date current_time
      (existing.length + 1) 1 1 (le_refl _) (by omega)
      (fun w hw1 hw2 => absurd (lt_of_le_of_lt hw1 hw2) (by omega)) h2
  · intro v hv1 hv2 h1 hall hfree
    simp only [get_versioned_output_path]
    rw [h1]
    simp only [if_true]
    exact version_scan_finds existing base_dir pre current_date current_time
      (existing.length + 1) 1 v hv1 (by omega) hall hfree

/-- Witness for C8's amended claim: after the base file exists, the next
call returns the `_v1` name. -/
theorem get_versioned_output_path_spec_witness :
    ([initial_output_path "/o" "P" "20250101" "20250101_0900"].contains
        (initial_output_path "/o" "P" "20250101" "20250101_0900") = true)
    ∧ ([initial_output_path "/o" "P" "20250101" "20250101_0900"].contains
        (versioned_output_name "/o" "P" "20250101" "20250101_0900" 1) = false)
    ∧ get_versioned_output_path
        [initial_output_path "/o" "P" "20250101" "20250101_0900"]
        "/o" "P" "20250101" "20250101_0900"
      = versioned_output_name "/o" "P" "20250101" "20250101_0900" 1 :=
  ⟨by decide, by decide,
    (get_versioned_output_path_spec
      [initial_output_path "/o" "P" "20250101" "20250101_0900"]
      "/o" "P" "20250101" "20250101_0900").2.1 (by decide) (by decide)⟩

/-! ### Claim theorems: concurrent aggregation order (run_script.py) -/

/-- C2 evidence of the ordering bug: splitting the two-row table
`[["1"], ["2"]]` into two single-row chunks and letting chunk 1 complete
before chunk 0 (completion order `[1, 0]`, a permutation of the task
indices) makes the driver aggregate the rows as `[["2"], ["1"]]` — the
source row order is not restored, contradicting the claimed
order-preservation. -/
theorem process_all_chunks_completion_order_divergence :
    List.Perm [1, 0] (List.range 2)
    ∧ process_all_chunks
        ((chunk_polars_dataframe (some ⟨["a"], [["1"], ["2"]]⟩) 1).map some)
        [1, 0]
      = [⟨["a"], [["2"]]⟩, ⟨["a"], [["1"]]⟩]
    ∧ main_aggregate
        ((chunk_polars_dataframe (some ⟨["a"], [["1"], ["2"]]⟩) 1).map some)
        [1, 0]
      = some ⟨["a"], [["2"], ["1"]]⟩
    ∧ (⟨["a"], [["2"], ["1"]]⟩ : DF) ≠ ⟨["a"], [["1"], ["2"]]⟩ := by
  refine ⟨by decide, by decide, by decide, by decide⟩

/-- Witness for C7 at the default model identifier. -/
theorem token_failure_optimistic_passthrough_witness :
    count_tokens_with_gemini none = 0
    ∧ validate_token_limit none "gemini-2.0-flash-001"
        = (true, 0, calculate_safe_input_limit "gemini-2.0-flash-001")
    ∧ validate_content_tokens none "gemini-2.0-flash-001"
        = (true, 0, calculate_safe_input_limit "gemini-2.0-flash-001") :=
  token_failure_optimistic_passthrough "gemini-2.0-flash-001"
